import Mathlib

/-!
# Verification of the SMP client library

Shallow embedding of the SMP (simple management protocol) client library:
the frame codec (`CreateFrame`, `ValidateFrame`, `SMPFrameToFrame`,
`FrameToSMPFrame`, `NextSeqNum`), the firmware-upload chunking engine
(`imgChunker.run` / `imgChunker.sendChunk`) and the elastic window budget
(the pre-filled channel semaphore plus the `currentWindows` /
`currentAllowedWindows` atomics).

Machine integers are modelled as `Nat` with explicit `% 2 ^ w` at the
points where the Go code performs integer conversions (`uint8(..)`,
`uint16(..)`) or where fixed-width overflow can occur (`atomic.Uint32`).
Byte slices are `List Nat`. Fallible Go functions returning `(T, error)`
are modelled as `Except String T`. External collaborators (the CBOR codec,
SHA-256, the transport) are oracle parameters, as the spec treats them as
external interfaces.
-/

/-! ## Frame data model (from the protocol source: constants, SMPHeader, SMPFrame) -/

def SMPVersionLegacy : Nat := 0b00
def SMPVersion2 : Nat := 0b01

def SMPOpWriteRequest : Nat := 0x02
def SMPGroupImage : Nat := 0x01
def SMPCmdImageUpload : Nat := 0x01

/-- SMP frame header. Go field types: `Version`, `Op`, `Flags`, `GroupID`,
`SequenceNum`, `CommandID` are `uint8`; `DataLength` is `uint16`. -/
structure SMPHeader where
  Version : Nat
  Op : Nat
  Flags : Nat
  DataLength : Nat
  GroupID : Nat
  SequenceNum : Nat
  CommandID : Nat
deriving DecidableEq, Repr

/-- Complete SMP message: header plus payload bytes. -/
structure SMPFrame where
  Header : SMPHeader
  Data : List Nat
deriving DecidableEq, Repr

/-- Well-formedness: each header field fits its Go machine-integer type. -/
def SMPHeader.WF (h : SMPHeader) : Prop :=
  h.Version < 2 ^ 8 ∧ h.Op < 2 ^ 8 ∧ h.Flags < 2 ^ 8 ∧ h.DataLength < 2 ^ 16 ∧
    h.GroupID < 2 ^ 8 ∧ h.SequenceNum < 2 ^ 8 ∧ h.CommandID < 2 ^ 8

instance (h : SMPHeader) : Decidable h.WF := by
  unfold SMPHeader.WF; infer_instance

/-- `SMPFrame.ValidateFrame` from the source. The Go code compares
`f.Header.DataLength != uint16(len(f.Data))`: the payload length is
converted to `uint16`, i.e. reduced `% 2 ^ 16`, before the comparison.
The `nil`-receiver check has no counterpart: every Lean `SMPFrame` is a
value. -/
def ValidateFrame (f : SMPFrame) : Except String Unit :=
  if f.Header.DataLength ≠ f.Data.length % 2 ^ 16 then
    Except.error "data length mismatch"
  else if f.Header.Version ≠ SMPVersionLegacy ∧ f.Header.Version ≠ SMPVersion2 then
    Except.error "invalid version"
  else
    Except.ok ()

/-- `NextSeqNum` from the source, with the process-wide `seqNum`
(`atomic.Uint32`) passed as explicit state. `seqNum.Add(1)` wraps at
`2 ^ 32`; the result is `uint8(newCounter % 0xff)`, and the `uint8`
conversion is a further `% 2 ^ 8`. Returns (sequence number, new counter). -/
def NextSeqNum (seqNum : Nat) : Nat × Nat :=
  let newCounter := (seqNum + 1) % 2 ^ 32
  ((newCounter % 0xff) % 2 ^ 8, newCounter)

/-- `CreateFrame` from the source, with the sequence counter threaded as
state. `DataLength` is `uint16(len(data))`, i.e. `data.length % 2 ^ 16`.
Returns (frame, new sequence counter). -/
def CreateFrame (op groupID commandID : Nat) (data : List Nat) (seqNum : Nat) :
    SMPFrame × Nat :=
  let r := NextSeqNum seqNum
  ({ Header :=
      { Version := SMPVersion2
        Op := op
        Flags := 0x00
        DataLength := data.length % 2 ^ 16
        GroupID := groupID
        SequenceNum := r.1
        CommandID := commandID }
     Data := data }, r.2)

/-! ## Wire codec (transport.go: `SMPFrameToFrame`, `FrameToSMPFrame`) -/

/-- `SMPFrameToFrame` from transport.go. The 8-byte header buffer is
written index by index (index 4 is never written and stays zero), then the
payload is appended. `header[0] = (Version << 3) | Op` is a `uint8` shift,
hence the `% 2 ^ 8`; `header[2] = byte(DataLength >> 8)` is a byte
conversion, hence `% 2 ^ 8`. The Go function's error result is always
`nil`. -/
def SMPFrameToFrame (frame : SMPFrame) : Except String (List Nat) :=
  Except.ok
    ([((frame.Header.Version <<< 3) % 2 ^ 8) ||| frame.Header.Op,
      frame.Header.Flags,
      (frame.Header.DataLength >>> 8) % 2 ^ 8,
      frame.Header.DataLength &&& 0xFF,
      0,
      frame.Header.GroupID,
      frame.Header.SequenceNum,
      frame.Header.CommandID] ++ frame.Data)

/-- `FrameToSMPFrame` from transport.go: reject inputs shorter than 8
bytes, parse the big-endian header from the first 8 bytes (byte 4 is
ignored), and reject a declared payload length that differs from the
actual remaining byte count. -/
def FrameToSMPFrame (frameData : List Nat) : Except String SMPFrame :=
  if frameData.length < 8 then
    Except.error "frame too small, minimum 8 bytes required"
  else
    let headerBytes := frameData.take 8
    let dataBytes := frameData.drop 8
    let header : SMPHeader :=
      { Version := (headerBytes.getD 0 0 >>> 3) &&& 0x03
        Op := headerBytes.getD 0 0 &&& 0x07
        Flags := headerBytes.getD 1 0
        DataLength := (headerBytes.getD 2 0 <<< 8) ||| headerBytes.getD 3 0
        GroupID := headerBytes.getD 5 0
        SequenceNum := headerBytes.getD 6 0
        CommandID := headerBytes.getD 7 0 }
    if header.DataLength ≠ dataBytes.length then
      Except.error "data length mismatch"
    else
      Except.ok { Header := header, Data := dataBytes }

/-! ## Helper lemmas on byte arithmetic -/

theorem byte0_roundtrip :
    ∀ v : Nat, v < 4 → ∀ op : Nat, op < 8 →
      (((((v <<< 3) % 2 ^ 8) ||| op) >>> 3) &&& 0x03 = v ∧
        (((v <<< 3) % 2 ^ 8) ||| op) &&& 0x07 = op ∧
        ((v <<< 3) % 2 ^ 8) ||| op = (v <<< 3) ||| op) := by
  decide

theorem lor_shift8_eq (hi lo : Nat) (hlo : lo < 2 ^ 8) :
    (hi <<< 8) ||| lo = hi * 2 ^ 8 + lo := by
  rw [Nat.shiftLeft_eq, Nat.mul_comm hi (2 ^ 8), ← Nat.mul_add_lt_is_or hlo,
    Nat.mul_comm]

theorem dataLength_split (d : Nat) (hd : d < 2 ^ 16) :
    (d >>> 8) % 2 ^ 8 = d / 2 ^ 8 ∧ d &&& 0xFF = d % 2 ^ 8 := by
  constructor
  · rw [Nat.shiftRight_eq_div_pow]
    exact Nat.mod_eq_of_lt (by omega)
  · have : (0xFF : Nat) = 2 ^ 8 - 1 := by norm_num
    rw [this, Nat.and_pow_two_sub_one_eq_mod]

/-! ## Claim C6: ValidateFrame error conditions -/

/-- C6 counterexample: a frame whose declared payload length (0) differs
from its actual payload length (`2 ^ 16`) and whose version is valid, yet
`ValidateFrame` accepts it, because the Go code compares against
`uint16(len(f.Data))`, which truncates the actual length modulo `2 ^ 16`. -/
theorem c6_counterexample :
    ValidateFrame
        { Header :=
            { Version := 1, Op := 2, Flags := 0, DataLength := 0, GroupID := 1,
              SequenceNum := 0, CommandID := 1 }
          Data := List.replicate (2 ^ 16) 0 } = Except.ok () ∧
      (0 : Nat) ≠ (List.replicate (2 ^ 16) (0 : Nat)).length := by
  have key : ∀ l : List Nat, l.length = 2 ^ 16 →
      ValidateFrame
        { Header :=
            { Version := 1, Op := 2, Flags := 0, DataLength := 0, GroupID := 1,
              SequenceNum := 0, CommandID := 1 }
          Data := l } = Except.ok () := by
    intro l hl
    unfold ValidateFrame
    rw [hl]
    norm_num [SMPVersionLegacy, SMPVersion2]
  refine ⟨key _ (List.length_replicate _ _), ?_⟩
  rw [List.length_replicate]
  norm_num

/-- C6 (amended): for every frame, `ValidateFrame` returns an error iff
the declared payload length differs from the actual payload byte length
*taken modulo `2 ^ 16`* (they agree exactly whenever the payload is
shorter than `2 ^ 16` bytes), or the version is neither the legacy
version (0) nor v2 (1). -/
theorem validateFrame_error_iff (f : SMPFrame) :
    (∃ e, ValidateFrame f = Except.error e) ↔
      (f.Header.DataLength ≠ f.Data.length % 2 ^ 16 ∨
        (f.Header.Version ≠ SMPVersionLegacy ∧ f.Header.Version ≠ SMPVersion2)) := by
  unfold ValidateFrame
  split
  · next h => simpa using Or.inl h
  · next h =>
    split
    · next h2 => simpa using Or.inr h2
    · next h2 =>
      push_neg at h h2
      constructor
      · rintro ⟨e, he⟩
        exact Except.noConfusion he
      · rintro (h3 | ⟨h4, h5⟩)
        · exact absurd h h3
        · exact absurd (h2 h4) h5

/-! ## Claim C8: sequence number generation -/

/-- C8 counterexample: at counter value `2 ^ 32 - 1` (reachable after
`2 ^ 32 - 1` calls), the `atomic.Uint32` wraps before the `% 255`, so the
generator returns `0`, not "previous counter value plus one modulo 255"
(which is `1`); moreover the call before it also returns `0`, so the
assigned numbers do not increase by one there. -/
theorem c8_counterexample :
    (NextSeqNum (2 ^ 32 - 1)).1 ≠ ((2 ^ 32 - 1) + 1) % 255 ∧
      (NextSeqNum (2 ^ 32 - 1)).1 = 0 ∧ ((2 ^ 32 - 1) + 1) % 255 = 1 ∧
      (NextSeqNum (2 ^ 32 - 2)).1 = 0 ∧
      (NextSeqNum (NextSeqNum (2 ^ 32 - 2)).2).1 = 0 := by
  refine ⟨?_, ?_, ?_, ?_, ?_⟩ <;> decide

/-- C8 (amended): every frame built by `CreateFrame` carries the sequence
number freshly produced by `NextSeqNum` from the process-wide counter, and
each call returns `((previous counter + 1) mod 2 ^ 32) mod 255` while
advancing the counter to `(previous + 1) mod 2 ^ 32`; whenever the `uint32`
counter does not wrap (`previous + 1 < 2 ^ 32`) this is exactly
`(previous + 1) mod 255`, so the numbers increase by one per frame modulo
255 and wrap to 0 in place of 255. -/
theorem c8_thm (op groupID commandID : Nat) (data : List Nat) (s : Nat) :
    (CreateFrame op groupID commandID data s).1.Header.SequenceNum = (NextSeqNum s).1 ∧
      (CreateFrame op groupID commandID data s).2 = (NextSeqNum s).2 ∧
      (NextSeqNum s).1 = ((s + 1) % 2 ^ 32) % 255 ∧
      (NextSeqNum s).2 = (s + 1) % 2 ^ 32 ∧
      (s + 1 < 2 ^ 32 → (NextSeqNum s).1 = (s + 1) % 255) := by
  refine ⟨rfl, rfl, ?_, rfl, fun h => ?_⟩
  · show ((s + 1) % 2 ^ 32 % 0xff) % 2 ^ 8 = (s + 1) % 2 ^ 32 % 255
    omega
  · show ((s + 1) % 2 ^ 32 % 0xff) % 2 ^ 8 = (s + 1) % 255
    omega

/-- Witness for C8 at concrete inputs. -/
theorem c8_thm_witness :
    (NextSeqNum 3).1 = (3 + 1) % 255 ∧
      (CreateFrame 2 1 1 [7] 3).1.Header.SequenceNum = (NextSeqNum 3).1 :=
  ⟨(c8_thm 2 1 1 [7] 3).2.2.2.2 (by decide), (c8_thm 2 1 1 [7] 3).1⟩

/-! ## Claim C9: CreateFrame header-length invariant -/

/-- C9 counterexample: for a payload of `2 ^ 16` bytes, the frame built by
`CreateFrame` declares payload length `0` (the `uint16(len(data))`
truncation), not the actual `2 ^ 16` — even though it still passes
`ValidateFrame` (whose comparison truncates the same way). -/
theorem c9_counterexample :
    (CreateFrame SMPOpWriteRequest SMPGroupImage SMPCmdImageUpload
        (List.replicate (2 ^ 16) 0) 0).1.Header.DataLength = 0 ∧
      (List.replicate (2 ^ 16) (0 : Nat)).length = 2 ^ 16 ∧
      ValidateFrame (CreateFrame SMPOpWriteRequest SMPGroupImage SMPCmdImageUpload
        (List.replicate (2 ^ 16) 0) 0).1 = Except.ok () := by
  have key1 : ∀ l : List Nat, l.length = 2 ^ 16 →
      (CreateFrame SMPOpWriteRequest SMPGroupImage SMPCmdImageUpload
        l 0).1.Header.DataLength = 0 := by
    intro l hl
    show l.length % 2 ^ 16 = 0
    rw [hl]
    norm_num
  have key3 : ∀ l : List Nat, l.length = 2 ^ 16 →
      ValidateFrame (CreateFrame SMPOpWriteRequest SMPGroupImage SMPCmdImageUpload
        l 0).1 = Except.ok () := by
    intro l hl
    unfold ValidateFrame CreateFrame
    rw [hl]
    norm_num [SMPVersionLegacy, SMPVersion2]
  exact ⟨key1 _ (List.length_replicate _ _), List.length_replicate _ _,
    key3 _ (List.length_replicate _ _)⟩

/-- C9 (amended): every frame constructed by `CreateFrame` has declared
payload length equal to the actual payload byte length *modulo `2 ^ 16`*
(exactly equal whenever the payload is shorter than `2 ^ 16` bytes), and
every such frame passes `ValidateFrame` without error. -/
theorem c9_thm (op groupID commandID : Nat) (data : List Nat) (s : Nat) :
    (CreateFrame op groupID commandID data s).1.Header.DataLength = data.length % 2 ^ 16 ∧
      ValidateFrame (CreateFrame op groupID commandID data s).1 = Except.ok () ∧
      (data.length < 2 ^ 16 →
        (CreateFrame op groupID commandID data s).1.Header.DataLength = data.length) := by
  refine ⟨rfl, ?_, fun h => ?_⟩
  · simp [ValidateFrame, CreateFrame, SMPVersionLegacy, SMPVersion2]
  · show data.length % 2 ^ 16 = data.length
    exact Nat.mod_eq_of_lt h

/-- Witness for C9 at a concrete payload. -/
theorem c9_thm_witness :
    ValidateFrame (CreateFrame 2 1 1 [9, 8, 7] 0).1 = Except.ok () ∧
      (CreateFrame 2 1 1 [9, 8, 7] 0).1.Header.DataLength = [9, 8, 7].length :=
  ⟨(c9_thm 2 1 1 [9, 8, 7] 0).2.1, (c9_thm 2 1 1 [9, 8, 7] 0).2.2 (by decide)⟩

/-! ## Claim C7: wire round-trip and bit layout -/

theorem getD_take8 (l : List Nat) (i : Nat) (h : i < 8) :
    (l.take 8).getD i 0 = l.getD i 0 := by
  simp [List.getD_eq_getElem?_getD, List.getElem?_take_of_lt h]

/-- C7: for every well-formed frame whose declared payload length equals
its actual payload length, whose version fits in 2 bits and whose opcode
fits in 3 bits, encoding (`SMPFrameToFrame`) and then decoding
(`FrameToSMPFrame`) returns the original frame; byte 0 of the wire bytes
is the version shifted left 3 bits combined with the opcode, bytes 2-3
hold the payload length big-endian, and byte 4 is reserved as zero. -/
theorem c7_thm (f : SMPFrame) (hWF : f.Header.WF) (hv : f.Header.Version < 4)
    (hop : f.Header.Op < 8) (hlen : f.Header.DataLength = f.Data.length) :
    ∃ bs, SMPFrameToFrame f = Except.ok bs ∧
      FrameToSMPFrame bs = Except.ok f ∧
      bs.getD 0 0 = (f.Header.Version <<< 3) ||| f.Header.Op ∧
      bs.getD 2 0 * 2 ^ 8 + bs.getD 3 0 = f.Header.DataLength ∧
      bs.getD 4 0 = 0 := by
  obtain ⟨⟨v, op, fl, d, g, sq, cm⟩, data⟩ := f
  obtain ⟨hv8, hop8, hfl8, hd16, hg8, hsq8, hcm8⟩ := hWF
  simp only at hv hop hlen hd16 ⊢
  have hb0 := byte0_roundtrip v hv op hop
  have hsplit := dataLength_split d hd16
  have hb3lt : d &&& 0xFF < 2 ^ 8 := by
    rw [hsplit.2]; exact Nat.mod_lt _ (by norm_num)
  have hDL : ((d >>> 8) % 2 ^ 8) <<< 8 ||| (d &&& 0xFF) = d := by
    rw [lor_shift8_eq _ _ hb3lt, hsplit.1, hsplit.2]; omega
  refine ⟨_, rfl, ?_, ?_, ?_, rfl⟩
  · unfold FrameToSMPFrame
    rw [if_neg (by simp)]
    simp only [List.cons_append, List.nil_append, List.take_succ_cons,
      List.take_zero, List.drop_succ_cons, List.drop_zero, List.getD_cons_zero,
      List.getD_cons_succ]
    rw [hb0.1, hb0.2.1, hDL, if_neg (by rw [hlen]; simp)]
  · simp only [List.cons_append, List.nil_append, List.getD_cons_zero]
    exact hb0.2.2
  · simp only [List.cons_append, List.nil_append, List.getD_cons_zero,
      List.getD_cons_succ]
    rw [hsplit.1, hsplit.2]
    omega

/-- Witness for C7 at a concrete frame. -/
theorem c7_thm_witness :
    ∃ bs,
      SMPFrameToFrame
          { Header :=
              { Version := 1, Op := 2, Flags := 0, DataLength := 2, GroupID := 1,
                SequenceNum := 7, CommandID := 1 }
            Data := [9, 8] } = Except.ok bs ∧
        FrameToSMPFrame bs = Except.ok
          { Header :=
              { Version := 1, Op := 2, Flags := 0, DataLength := 2, GroupID := 1,
                SequenceNum := 7, CommandID := 1 }
            Data := [9, 8] } ∧
        bs.getD 0 0 = (1 <<< 3) ||| 2 ∧
        bs.getD 2 0 * 2 ^ 8 + bs.getD 3 0 = 2 ∧
        bs.getD 4 0 = 0 :=
  c7_thm
    { Header :=
        { Version := 1, Op := 2, Flags := 0, DataLength := 2, GroupID := 1,
          SequenceNum := 7, CommandID := 1 }
      Data := [9, 8] } (by decide) (by decide) (by decide) (by decide)

/-! ## Claim C10: decoder totality and bounds safety -/

/-- C10: `FrameToSMPFrame` is total on arbitrary byte lists (the embedding
is a total function; the Go code only indexes `frameData[:8]` after the
length guard): inputs shorter than 8 bytes yield an error, inputs of at
least 8 bytes whose declared payload length (big-endian bytes 2-3) differs
from the count of bytes after the header yield an error, and every
successfully decoded frame has `DataLength` equal to its actual payload
length. -/
theorem c10_thm (bs : List Nat) :
    (bs.length < 8 → ∃ e, FrameToSMPFrame bs = Except.error e) ∧
      (8 ≤ bs.length → (bs.getD 2 0 <<< 8) ||| bs.getD 3 0 ≠ bs.length - 8 →
        ∃ e, FrameToSMPFrame bs = Except.error e) ∧
      ∀ f, FrameToSMPFrame bs = Except.ok f → f.Header.DataLength = f.Data.length := by
  refine ⟨fun h => ?_, fun h8 hne => ?_, fun f hf => ?_⟩
  · unfold FrameToSMPFrame
    rw [if_pos h]
    exact ⟨_, rfl⟩
  · unfold FrameToSMPFrame
    rw [if_neg (by omega)]
    rw [if_pos]
    · exact ⟨_, rfl⟩
    · simpa [getD_take8 bs 2 (by norm_num), getD_take8 bs 3 (by norm_num),
        List.length_drop] using hne
  · unfold FrameToSMPFrame at hf
    by_cases h1 : bs.length < 8
    · rw [if_pos h1] at hf
      exact Except.noConfusion hf
    · rw [if_neg h1] at hf
      by_cases h2 :
          ((bs.take 8).getD 2 0 <<< 8) ||| (bs.take 8).getD 3 0 ≠ (bs.drop 8).length
      · rw [if_pos h2] at hf
        exact Except.noConfusion hf
      · rw [if_neg h2] at hf
        obtain rfl : _ = f := Except.ok.inj hf
        simpa using h2

/-- Witness for C10 at concrete inputs: a short input and a
length-mismatched input are rejected; a valid 8-byte frame decodes with
matching lengths. -/
theorem c10_thm_witness :
    (∃ e, FrameToSMPFrame [1, 2, 3] = Except.error e) ∧
      (∃ e, FrameToSMPFrame [0, 0, 0, 5, 0, 0, 0, 0, 1] = Except.error e) :=
  ⟨(c10_thm [1, 2, 3]).1 (by decide),
    (c10_thm [0, 0, 0, 5, 0, 0, 0, 0, 1]).2.1 (by decide) (by decide)⟩

/-! ## Upload request/response bodies (request-building source) -/

/-- Error response body in SMP v2. -/
structure ErrorResponse where
  Group : Nat
  Rc : Nat
deriving DecidableEq, Repr

/-- Firmware upload response body. Go zero values model the optional CBOR
fields that the engine reads unconditionally. -/
structure FirmwareUploadResponse where
  Off : Nat
  Match : Bool
  Err : ErrorResponse
deriving DecidableEq, Repr

/-- Firmware upload request body. -/
structure FirmwareUploadRequest where
  Image : Nat
  Len : Nat
  Off : Nat
  SHA : List Nat
  Data : List Nat
  Upgrade : Bool
deriving DecidableEq, Repr

/-- `BuildFirmwareUploadRequest` from the source: `Off` and `Data` always;
image index, total length, whole-image SHA and upgrade flag only when
`offset == 0` (Go zero values otherwise). -/
def BuildFirmwareUploadRequest (image imgLen offset : Nat) (sha data : List Nat)
    (upgrade : Bool) : FirmwareUploadRequest :=
  if offset = 0 then
    { Image := image, Len := imgLen, Off := offset, SHA := sha, Data := data,
      Upgrade := upgrade }
  else
    { Image := 0, Len := 0, Off := offset, SHA := [], Data := data,
      Upgrade := false }

/-! ## Chunk offsets (`imgChunker.run`) and per-chunk request (`imgChunker.sendChunk`) -/

/-- The offset-collecting loop at the start of `imgChunker.run`:
`currOffset` walks from `curr` in `chunkSize` strides while below
`dataLen`, appending each position. The `0 < chunkSize` conjunct makes the
recursion well-founded; the Go loop does not terminate for a zero stride,
and all claims assume a positive chunk size. The window count plays no
role in this computation. -/
def chunkOffsetsFrom (dataLen chunkSize curr : Nat) : List Nat :=
  if _h : curr < dataLen ∧ 0 < chunkSize then
    curr :: chunkOffsetsFrom dataLen chunkSize (curr + chunkSize)
  else
    []
termination_by dataLen - curr
decreasing_by omega

/-- `imgChunker.chunkOffsets` as computed by `run` (loop starts at 0). -/
def chunkOffsets (data : List Nat) (chunkSize : Nat) : List Nat :=
  chunkOffsetsFrom data.length chunkSize 0

/-- `nextPtr := min(offset+c.chunkSize, dataLen)` from `imgChunker.sendChunk`. -/
def nextPtr (dataLen chunkSize offset : Nat) : Nat :=
  min (offset + chunkSize) dataLen

/-- The request `imgChunker.sendChunk` builds for the chunk at `offset`:
the source calls
`BuildFirmwareUploadRequest(0, uint32(dataLen), uint32(offset), shaVal, c.data[offset:nextPtr], false)`,
so the total length and the offset are converted to `uint32`, wrapping at
`2 ^ 32`. The whole-image SHA-256 (an external oracle, passed in as
`shaVal`) is attached only when the *unconverted* `int` offset is 0 (the
`if offset == 0` earlier in `sendChunk`), while the data slice
`c.data[offset:nextPtr]` also uses the unconverted offset. -/
def chunkReq (data : List Nat) (chunkSize offset : Nat) (shaVal : List Nat) :
    FirmwareUploadRequest :=
  let dataLen := data.length
  let sv := if offset = 0 then shaVal else []
  BuildFirmwareUploadRequest 0 (dataLen % 2 ^ 32) (offset % 2 ^ 32) sv
    ((data.drop offset).take (nextPtr dataLen chunkSize offset - offset)) false

/-! ## Helper lemmas about the offset list -/

theorem mem_chunkOffsetsFrom (L C : Nat) (hC : 0 < C) :
    ∀ n s o, L - s ≤ n →
      (o ∈ chunkOffsetsFrom L C s ↔ ∃ k, o = s + k * C ∧ o < L) := by
  intro n
  induction n with
  | zero =>
    intro s o hn
    rw [chunkOffsetsFrom, dif_neg (by rintro ⟨h1, _⟩; omega)]
    simp only [List.not_mem_nil, false_iff]
    rintro ⟨k, rfl, hk⟩
    have := Nat.zero_le (k * C)
    omega
  | succ n ih =>
    intro s o hn
    rw [chunkOffsetsFrom]
    by_cases hs : s < L
    · rw [dif_pos ⟨hs, hC⟩]
      simp only [List.mem_cons]
      rw [ih (s + C) o (by omega)]
      constructor
      · rintro (rfl | ⟨k, rfl, hk⟩)
        · exact ⟨0, by simp, hs⟩
        · exact ⟨k + 1, by ring_nf, hk⟩
      · rintro ⟨k, rfl, hk⟩
        cases k with
        | zero => left; simp
        | succ k => right; exact ⟨k, by ring_nf, hk⟩
    · rw [dif_neg (by rintro ⟨h1, _⟩; omega)]
      simp only [List.not_mem_nil, false_iff]
      rintro ⟨k, rfl, hk⟩
      have := Nat.zero_le (k * C)
      omega

theorem pairwise_chunkOffsetsFrom (L C : Nat) (hC : 0 < C) :
    ∀ n s, L - s ≤ n → List.Pairwise (· < ·) (chunkOffsetsFrom L C s) := by
  intro n
  induction n with
  | zero =>
    intro s hn
    rw [chunkOffsetsFrom, dif_neg (by rintro ⟨h1, _⟩; omega)]
    exact List.Pairwise.nil
  | succ n ih =>
    intro s hn
    rw [chunkOffsetsFrom]
    by_cases hs : s < L
    · rw [dif_pos ⟨hs, hC⟩]
      refine List.pairwise_cons.mpr ⟨?_, ih (s + C) (by omega)⟩
      intro o ho
      rw [mem_chunkOffsetsFrom L C hC (L - (s + C)) (s + C) o (by omega)] at ho
      obtain ⟨k, rfl, -⟩ := ho
      calc s < s + C := by omega
        _ ≤ s + C + k * C := Nat.le_add_right _ _
    · rw [dif_neg (by rintro ⟨h1, _⟩; omega)]
      exact List.Pairwise.nil

theorem mem_chunkOffsets (data : List Nat) (C : Nat) (hC : 0 < C) (o : Nat) :
    o ∈ chunkOffsets data C ↔ (∃ k, o = k * C) ∧ o < data.length := by
  unfold chunkOffsets
  rw [mem_chunkOffsetsFrom data.length C hC data.length 0 o (by omega)]
  constructor
  · rintro ⟨k, rfl, h⟩
    exact ⟨⟨k, Nat.zero_add _⟩, h⟩
  · rintro ⟨⟨k, rfl⟩, h⟩
    exact ⟨k, (Nat.zero_add _).symm, h⟩

/-! ## Claim C1: chunk offsets partition the image -/

/-- C1 counterexample: for an image of `2 ^ 32 + 1` bytes and chunk size
`2 ^ 32`, the computed offset list contains the offset `2 ^ 32`, but the
request dispatched for it carries `Off = uint32(2 ^ 32) = 0`, not
`2 ^ 32` — the source converts the offset with `uint32(...)` when
building the request, so the dispatched chunk does not identify the byte
range `[2 ^ 32, L)` to the device. -/
theorem c1_counterexample :
    2 ^ 32 ∈ chunkOffsets (List.replicate (2 ^ 32 + 1) 0) (2 ^ 32) ∧
      (chunkReq (List.replicate (2 ^ 32 + 1) 0) (2 ^ 32) (2 ^ 32) []).Off = 0 ∧
      (0 : Nat) ≠ 2 ^ 32 := by
  have hmem : ∀ l : List Nat, l.length = 2 ^ 32 + 1 →
      2 ^ 32 ∈ chunkOffsets l (2 ^ 32) := by
    intro l hl
    rw [mem_chunkOffsets l (2 ^ 32) (by norm_num) (2 ^ 32)]
    exact ⟨⟨1, (one_mul _).symm⟩, by rw [hl]; norm_num⟩
  have hoff : ∀ l : List Nat,
      (chunkReq l (2 ^ 32) (2 ^ 32) []).Off = 0 := by
    intro l
    unfold chunkReq BuildFirmwareUploadRequest
    norm_num
  exact ⟨hmem _ (List.length_replicate _ _), hoff _, by norm_num⟩

/-- C1 (amended): for every image with `0 < L` bytes and every chunk size
`0 < C`, the offset list computed by `imgChunker.run` contains exactly
the multiples of `C` below `L`, in strictly ascending order; every byte
index `x < L` is covered by exactly one dispatched chunk range
`[o, nextPtr L C o) = [o, min(o+C, L))`; and the chunk request dispatched
for offset `o` carries exactly the bytes of that range, with an `Off`
field equal to `uint32(o) = o mod 2 ^ 32` — equal to `o` itself whenever
`o < 2 ^ 32`, i.e. for every image smaller than `2 ^ 32` bytes. The
offset computation and the ranges do not depend on the window count
(`maxWindows` does not occur in `chunkOffsets`, `nextPtr` or `chunkReq`). -/
theorem c1_thm (data : List Nat) (C : Nat) (shaVal : List Nat)
    (hL : 0 < data.length) (hC : 0 < C) :
    (∀ o, o ∈ chunkOffsets data C ↔ (∃ k, o = k * C) ∧ o < data.length) ∧
      List.Pairwise (· < ·) (chunkOffsets data C) ∧
      (∀ x, x < data.length →
        ∃! o, o ∈ chunkOffsets data C ∧ o ≤ x ∧ x < nextPtr data.length C o) ∧
      (∀ o, o ∈ chunkOffsets data C →
        (chunkReq data C o shaVal).Off = o % 2 ^ 32 ∧
        (o < 2 ^ 32 → (chunkReq data C o shaVal).Off = o) ∧
        (chunkReq data C o shaVal).Data.length = nextPtr data.length C o - o ∧
        (∀ j, (chunkReq data C o shaVal).Data[j]? =
          if j < nextPtr data.length C o - o then data[o + j]? else none)) := by
  refine ⟨mem_chunkOffsets data C hC, ?_, ?_, ?_⟩
  · exact pairwise_chunkOffsetsFrom data.length C hC data.length 0 (by omega)
  · intro x hx
    have hdm : x / C * C ≤ x := Nat.div_mul_le_self x C
    have hlt : x < x / C * C + C := Nat.lt_div_mul_add hC
    refine ⟨x / C * C,
      ⟨(mem_chunkOffsets data C hC _).mpr ⟨⟨x / C, rfl⟩, by omega⟩, hdm, ?_⟩, ?_⟩
    · unfold nextPtr
      omega
    · rintro o' ⟨ho', hle, hlto⟩
      obtain ⟨⟨k, rfl⟩, hkL⟩ := (mem_chunkOffsets data C hC o').mp ho'
      have hxo : x < k * C + C := by
        unfold nextPtr at hlto
        omega
      have hk : x / C = k :=
        Nat.div_eq_of_lt_le hle (by rw [Nat.succ_mul]; exact hxo)
      rw [hk]
  · intro o ho
    have hoL : o < data.length := ((mem_chunkOffsets data C hC o).mp ho).2
    have hOff : (chunkReq data C o shaVal).Off = o % 2 ^ 32 := by
      unfold chunkReq BuildFirmwareUploadRequest
      split <;> split <;> rfl
    have hData : (chunkReq data C o shaVal).Data =
        (data.drop o).take (nextPtr data.length C o - o) := by
      unfold chunkReq BuildFirmwareUploadRequest
      split <;> split <;> rfl
    refine ⟨hOff, fun hb => hOff.trans (Nat.mod_eq_of_lt hb), ?_, ?_⟩
    · rw [hData, List.length_take, List.length_drop]
      unfold nextPtr
      omega
    · intro j
      rw [hData, List.getElem?_take, List.getElem?_drop]

/-- Witness for C1 at a concrete image and chunk size. -/
theorem c1_thm_witness :
    (4 ∈ chunkOffsets [5, 6, 7, 8, 9] 2 ↔
        (∃ k, 4 = k * 2) ∧ 4 < [5, 6, 7, 8, 9].length) ∧
      List.Pairwise (· < ·) (chunkOffsets [5, 6, 7, 8, 9] 2) :=
  ⟨(c1_thm [5, 6, 7, 8, 9] 2 [] (by decide) (by decide)).1 4,
    (c1_thm [5, 6, 7, 8, 9] 2 [] (by decide) (by decide)).2.1⟩

/-! ## Chunk delivery attempt loop (`imgChunker.sendChunk`) -/

/-- Result of one `transport.Send` call as the attempt loop classifies it:
a response frame, a `context.DeadlineExceeded` (timeout), or any other
transport error. -/
inductive SendResult where
  | ok (resp : SMPFrame)
  | timeout
  | sendErr (msg : String)
deriving DecidableEq, Repr

/-- One iteration of the attempt loop: the value of the `ctx.Err() != nil`
test at the loop-condition check, and the transport's answer if the body
runs. A run of the loop is driven by a finite script of these. -/
structure SendAttempt where
  ctxDone : Bool
  result : SendResult
deriving DecidableEq, Repr

/-- Outcome of `imgChunker.sendChunk`, one constructor per `return` path
of the source; `pending` stands for a script that ended while the loop
would still be retrying. -/
inductive ChunkResult where
  | success
  | encodeError (msg : String)
  | sendError (msg : String)
  | validationError (msg : String)
  | decodeError (msg : String)
  | rcError (group rc : Nat)
  | ctxError
  | exhausted
  | pending
deriving DecidableEq, Repr

/-- `const maxTries = 3` from `imgChunker.sendChunk`. -/
def maxTries : Nat := 3

/-- The attempt loop of `imgChunker.sendChunk`, script-driven.
`decodeResp` is the external CBOR decoder (`DecodeCBOR`) as an oracle.
The second component records callback invocations: the source calls
`c.cb(req)` exactly once, on the success return. The loop condition is
`tries < maxTries && ctx.Err() == nil`; on exit the source first re-checks
`ctx.Err()` (context error) and otherwise reports exhausted retries. The
budget variable `tries` is threaded unchanged through every iteration
because no statement in the source increments it. A timeout result leads
to `continue`; the back-off it performs mutates only the shared window
budget, which is modelled separately by `ChunkerStep`. -/
def sendChunkLoop (decodeResp : List Nat → Except String FirmwareUploadResponse)
    (req : FirmwareUploadRequest) (tries : Nat) :
    List SendAttempt → ChunkResult × List FirmwareUploadRequest
  | [] => (ChunkResult.pending, [])
  | att :: rest =>
    if tries < maxTries ∧ att.ctxDone = false then
      match att.result with
      | SendResult.timeout => sendChunkLoop decodeResp req tries rest
      | SendResult.sendErr m => (ChunkResult.sendError m, [])
      | SendResult.ok resp =>
        match ValidateFrame resp with
        | Except.error e => (ChunkResult.validationError e, [])
        | Except.ok _ =>
          match decodeResp resp.Data with
          | Except.error e => (ChunkResult.decodeError e, [])
          | Except.ok uploadResp =>
            if uploadResp.Err.Rc ≠ 0 then
              (ChunkResult.rcError uploadResp.Err.Group uploadResp.Err.Rc, [])
            else
              (ChunkResult.success, [req])
    else if att.ctxDone then (ChunkResult.ctxError, [])
    else (ChunkResult.exhausted, [])

/-- `imgChunker.sendChunk` for the chunk at `offset`: build the request
(whole-image SHA only at offset 0), encode it via the external CBOR
encoder oracle (an encode failure returns before any send), then run the
attempt loop starting at `tries = 0`. -/
def sendChunk (data : List Nat) (chunkSize offset : Nat) (shaVal : List Nat)
    (encode : FirmwareUploadRequest → Except String (List Nat))
    (decodeResp : List Nat → Except String FirmwareUploadResponse)
    (script : List SendAttempt) : ChunkResult × List FirmwareUploadRequest :=
  let req := chunkReq data chunkSize offset shaVal
  match encode req with
  | Except.error m => (ChunkResult.encodeError m, [])
  | Except.ok _uploadData => sendChunkLoop decodeResp req 0 script

/-- Sequential model of `imgChunker.run`'s dispatch loop: chunks are
processed in offset order; the first non-success worker result is
recorded once (the worker stores the first error and cancels the shared
context, which stops further dispatch) and returned after the join, and
callback invocations accumulate across the successful chunks. This
sequentialization is exact while `allowed = 1` (the budget's initial
state, in particular for the whole first chunk); per-chunk callback
attribution is scheduling-independent because the callback is invoked
inside `sendChunk` immediately before its success return. -/
def runChunks (doChunk : Nat → ChunkResult × List FirmwareUploadRequest) :
    List Nat → Option ChunkResult × List FirmwareUploadRequest
  | [] => (none, [])
  | o :: rest =>
    let r := doChunk o
    if r.1 = ChunkResult.success then
      let rest' := runChunks doChunk rest
      (rest'.1, r.2 ++ rest'.2)
    else
      (some r.1, r.2)

/-- The callback list of the attempt loop is nonempty only on full
success: frame sent, response validated, response body decoded, error
code zero — and then it is exactly one invocation with the built request. -/
theorem sendChunkLoop_cb_spec
    (decodeResp : List Nat → Except String FirmwareUploadResponse)
    (req : FirmwareUploadRequest) (tries : Nat) (script : List SendAttempt)
    (h : (sendChunkLoop decodeResp req tries script).2 ≠ []) :
    (sendChunkLoop decodeResp req tries script).1 = ChunkResult.success ∧
      (sendChunkLoop decodeResp req tries script).2 = [req] ∧
      ∃ att ∈ script, att.ctxDone = false ∧
        ∃ resp, att.result = SendResult.ok resp ∧
          ValidateFrame resp = Except.ok () ∧
          ∃ ur, decodeResp resp.Data = Except.ok ur ∧ ur.Err.Rc = 0 := by
  induction script with
  | nil => simp [sendChunkLoop] at h
  | cons att rest ih =>
    obtain ⟨cd, res⟩ := att
    rw [sendChunkLoop] at h ⊢
    by_cases hcond : tries < maxTries ∧ cd = false
    · rw [if_pos hcond] at h ⊢
      obtain ⟨-, rfl⟩ := hcond
      cases res with
      | timeout =>
        obtain ⟨h1, h2, att', hmem, hrest⟩ := ih h
        exact ⟨h1, h2, att', List.mem_cons_of_mem _ hmem, hrest⟩
      | sendErr m => simp at h
      | ok resp =>
        dsimp only at h ⊢
        cases hval : ValidateFrame resp with
        | error e =>
          rw [hval] at h
          simp at h
        | ok u =>
          rw [hval] at h
          dsimp only at h ⊢
          cases hdec : decodeResp resp.Data with
          | error e =>
            rw [hdec] at h
            simp at h
          | ok ur =>
            rw [hdec] at h
            dsimp only at h ⊢
            by_cases hrc : ur.Err.Rc = 0
            · simp only [hrc] at h ⊢
              refine ⟨by norm_num, by norm_num, ⟨false, SendResult.ok resp⟩,
                List.mem_cons_self _ _, rfl, resp, rfl, ?_, ur, hdec, hrc⟩
              cases u
              exact hval
            · simp [hrc] at h
    · rw [if_neg hcond] at h ⊢
      by_cases hcd : cd = true
      · rw [if_pos hcd] at h; simp at h
      · rw [if_neg hcd] at h; simp at h

/-! ## Claim C2: single error result; callbacks only on full success -/

/-- C2: the upload operation's result is a single error-or-nil value; the
per-chunk callback is invoked only for a chunk whose delivery fully
succeeded (a send returned a response, the response passed `ValidateFrame`,
its body decoded, and the decoded error code was zero) — and then exactly
once, with the request that was sent; and if the transport fails with a
generic non-timeout error on the very first chunk, the operation returns
exactly that error with no callback ever invoked. -/
theorem c2_thm (decodeResp : List Nat → Except String FirmwareUploadResponse) :
    (∀ req tries script,
        (sendChunkLoop decodeResp req tries script).2 ≠ [] →
          (sendChunkLoop decodeResp req tries script).1 = ChunkResult.success ∧
            (sendChunkLoop decodeResp req tries script).2 = [req] ∧
            ∃ att ∈ script, att.ctxDone = false ∧
              ∃ resp, att.result = SendResult.ok resp ∧
                ValidateFrame resp = Except.ok () ∧
                ∃ ur, decodeResp resp.Data = Except.ok ur ∧ ur.Err.Rc = 0) ∧
      (∀ doChunk offs,
        (runChunks doChunk offs).1 = none ∨
          ∃ r, (runChunks doChunk offs).1 = some r ∧ r ≠ ChunkResult.success) ∧
      (∀ data chunkSize shaVal encode
          (scripts : Nat → List SendAttempt) o rest uploadData m,
        encode (chunkReq data chunkSize o shaVal) = Except.ok uploadData →
        scripts o = [{ ctxDone := false, result := SendResult.sendErr m }] →
        runChunks
            (fun off => sendChunk data chunkSize off shaVal encode decodeResp (scripts off))
            (o :: rest) = (some (ChunkResult.sendError m), [])) := by
  refine ⟨fun req tries script => sendChunkLoop_cb_spec decodeResp req tries script, ?_, ?_⟩
  · intro doChunk offs
    induction offs with
    | nil => exact Or.inl rfl
    | cons o rest ih =>
      rw [runChunks]
      by_cases hs : (doChunk o).1 = ChunkResult.success
      · rw [if_pos hs]
        exact ih
      · rw [if_neg hs]
        exact Or.inr ⟨(doChunk o).1, rfl, hs⟩
  · intro data chunkSize shaVal encode scripts o rest uploadData m henc hscript
    have hchunk : sendChunk data chunkSize o shaVal encode decodeResp (scripts o) =
        (ChunkResult.sendError m, []) := by
      unfold sendChunk
      dsimp only
      rw [henc]
      dsimp only
      rw [hscript, sendChunkLoop, if_pos ⟨by norm_num [maxTries], rfl⟩]
    rw [runChunks]
    dsimp only
    rw [hchunk, if_neg (by simp)]

/-- Witness for C2: the first-chunk generic transport error scenario at
concrete inputs. -/
theorem c2_thm_witness :
    runChunks
        (fun off => sendChunk [1, 2] 1 off [] (fun _ => Except.ok [0])
          (fun _ => Except.error "e")
          ((fun _ => [{ ctxDone := false, result := SendResult.sendErr "boom" }]) off))
        (0 :: [1]) = (some (ChunkResult.sendError "boom"), []) :=
  (c2_thm (fun _ => Except.error "e")).2.2 [1, 2] 1 [] (fun _ => Except.ok [0])
    (fun _ => [{ ctxDone := false, result := SendResult.sendErr "boom" }]) 0 [1] [0]
    "boom" rfl rfl

/-! ## Claim C5: timeout retries and loop exit classification -/

/-- C5: in the attempt loop, a timeout send does not consume the per-chunk
attempt budget — the `tries` counter is unchanged and any number of
timeouts merely repeats the loop, so timeout retries are bounded only by
the context becoming done; if the loop exits because the context is done
it returns a context error; if it exits with the attempt budget exhausted
and the context not done it returns the exhausted-retries error. Starting
from the real entry state `tries = 0`, the exhausted-retries outcome is
impossible (no statement in the source increments `tries`). -/
theorem c5_thm (decodeResp : List Nat → Except String FirmwareUploadResponse)
    (req : FirmwareUploadRequest) :
    (∀ tries rest, tries < maxTries →
        sendChunkLoop decodeResp req tries
            ({ ctxDone := false, result := SendResult.timeout } :: rest) =
          sendChunkLoop decodeResp req tries rest) ∧
      (∀ n rest,
        sendChunkLoop decodeResp req 0
            (List.replicate n { ctxDone := false, result := SendResult.timeout } ++ rest) =
          sendChunkLoop decodeResp req 0 rest) ∧
      (∀ tries res rest,
        sendChunkLoop decodeResp req tries ({ ctxDone := true, result := res } :: rest) =
          (ChunkResult.ctxError, [])) ∧
      (∀ tries res rest, maxTries ≤ tries →
        sendChunkLoop decodeResp req tries ({ ctxDone := false, result := res } :: rest) =
          (ChunkResult.exhausted, [])) ∧
      (∀ script, (sendChunkLoop decodeResp req 0 script).1 ≠ ChunkResult.exhausted) := by
  have h1 : ∀ tries rest, tries < maxTries →
      sendChunkLoop decodeResp req tries
          ({ ctxDone := false, result := SendResult.timeout } :: rest) =
        sendChunkLoop decodeResp req tries rest := by
    intro tries rest ht
    rw [sendChunkLoop, if_pos ⟨ht, rfl⟩]
  refine ⟨h1, ?_, ?_, ?_, ?_⟩
  · intro n rest
    induction n with
    | zero => rw [List.replicate_zero, List.nil_append]
    | succ n ih =>
      rw [List.replicate_succ, List.cons_append, h1 0 _ (by norm_num [maxTries]), ih]
  · intro tries res rest
    rw [sendChunkLoop, if_neg (by simp)]
    simp
  · intro tries res rest ht
    rw [sendChunkLoop, if_neg (by rintro ⟨hlt, -⟩; omega)]
    simp
  · intro script
    induction script with
    | nil => simp [sendChunkLoop]
    | cons att rest ih =>
      obtain ⟨cd, res⟩ := att
      cases cd
      · rw [sendChunkLoop, if_pos ⟨by norm_num [maxTries], rfl⟩]
        cases res with
        | timeout => exact ih
        | sendErr m => simp
        | ok resp =>
          dsimp only
          cases ValidateFrame resp with
          | error e => simp
          | ok u =>
            dsimp only
            cases decodeResp resp.Data with
            | error e => simp
            | ok ur =>
              dsimp only
              by_cases hrc : ur.Err.Rc = 0
              · simp [hrc]
              · simp [hrc]
      · rw [sendChunkLoop, if_neg (by simp)]
        simp

/-- Witness for C5 at concrete inputs: a context-done exit yields the
context error; an (unreachable-from-entry) exhausted budget yields the
exhausted-retries error; a timeout repeats the loop without consuming
budget. -/
theorem c5_thm_witness :
    (sendChunkLoop (fun _ => Except.error "e")
        (⟨0, 0, 0, [], [], false⟩ : FirmwareUploadRequest) 0
        ({ ctxDone := true, result := SendResult.timeout } :: []) =
      (ChunkResult.ctxError, [])) ∧
      (sendChunkLoop (fun _ => Except.error "e")
          (⟨0, 0, 0, [], [], false⟩ : FirmwareUploadRequest) 3
          ({ ctxDone := false, result := SendResult.timeout } :: []) =
        (ChunkResult.exhausted, [])) ∧
      (sendChunkLoop (fun _ => Except.error "e")
          (⟨0, 0, 0, [], [], false⟩ : FirmwareUploadRequest) 0
          ({ ctxDone := false, result := SendResult.timeout } :: []) =
        sendChunkLoop (fun _ => Except.error "e")
          (⟨0, 0, 0, [], [], false⟩ : FirmwareUploadRequest) 0 []) :=
  ⟨(c5_thm (fun _ => Except.error "e") _).2.2.1 0 SendResult.timeout [],
    (c5_thm (fun _ => Except.error "e") _).2.2.2.1 3 SendResult.timeout [] (by decide),
    (c5_thm (fun _ => Except.error "e") _).1 0 [] (by decide)⟩

/-! ## Elastic window budget (`newChunker`, `imgChunker.run`, `tryUseWindow`, `freeWindow`) -/

/-- Interleaving-point state of the window budget. Fields map to the
source's synchronization state: `active` is `currentWindows`; `uncounted`
counts workers whose token the dispatch loop has inserted
(`tryUseWindow`) but whose `currentWindows.Add(1)` has not executed yet;
`releasing` counts workers past their deferred `currentWindows.Add(-1)`
but before their deferred `freeWindow()`; `fillers` counts filler tokens
currently in `sem` (the `cap(sem)-1` pre-load, plus one per timeout
back-off insert, minus one per completed growth removal); `pendingGrow`
counts growth CAS successes whose paired `freeWindow()` has not run yet;
`allowed` is `currentAllowedWindows`. The channel occupancy of `sem` is
`active + uncounted + releasing + fillers`, bounded by the channel
capacity `cap = maxWindows`. -/
structure ChunkerState where
  active : Nat
  uncounted : Nat
  releasing : Nat
  fillers : Nat
  pendingGrow : Nat
  allowed : Nat
deriving DecidableEq, Repr

/-- Number of tokens in the `sem` channel. -/
def ChunkerState.occupancy (s : ChunkerState) : Nat :=
  s.active + s.uncounted + s.releasing + s.fillers

/-- `newChunker` plus the pre-fill loop at the start of `run`: `sem`
holds `cap(sem) - 1` filler tokens (for `cap = 0` Go's `for range -1`
performs no iterations, matching `Nat` subtraction),
`currentAllowedWindows` starts at 1, and no workers exist yet. -/
def initChunker (cap : Nat) : ChunkerState :=
  { active := 0, uncounted := 0, releasing := 0, fillers := cap - 1,
    pendingGrow := 0, allowed := 1 }

/-- One atomic synchronization action of the source, as an interleaving
step; `cap` is `cap(c.sem) = maxWindows`:
* `acquire` — the dispatch loop's `tryUseWindow`: insert a token into
  `sem` (possible only when a slot is free; blocked or cancelled attempts
  take no step);
* `countUp` — `c.currentWindows.Add(1)` before the worker goroutine runs;
* `countDown` — the worker's deferred `c.currentWindows.Add(-1)`;
* `releaseToken` — the worker's deferred `c.freeWindow()`;
* `growCAS` — a successful
  `currentAllowedWindows.CompareAndSwap(v, v+1)`, guarded by `v < cap(sem)`
  (a failed CAS changes nothing and is not a step);
* `growFree` — the `c.freeWindow()` that follows a successful growth CAS,
  removing one filler;
* `clampStore` — the timeout back-off's
  `currentAllowedWindows.Store(int32(cap(c.sem)))`, reached on a chunk's
  first try when `currentWindows.Load() > 1` (the load-test-store sequence
  is modelled as one step; the invariant proofs do not depend on the
  guard);
* `clampInsert` — the back-off's `tryUseWindow` consuming one slot. -/
inductive ChunkerStep (cap : Nat) : ChunkerState → ChunkerState → Prop
  | acquire (s : ChunkerState) (h : s.occupancy < cap) :
      ChunkerStep cap s { s with uncounted := s.uncounted + 1 }
  | countUp (s : ChunkerState) (h : 0 < s.uncounted) :
      ChunkerStep cap s
        { s with uncounted := s.uncounted - 1, active := s.active + 1 }
  | countDown (s : ChunkerState) (h : 0 < s.active) :
      ChunkerStep cap s
        { s with active := s.active - 1, releasing := s.releasing + 1 }
  | releaseToken (s : ChunkerState) (h : 0 < s.releasing) :
      ChunkerStep cap s { s with releasing := s.releasing - 1 }
  | growCAS (s : ChunkerState) (h : s.allowed < cap) :
      ChunkerStep cap s
        { s with allowed := s.allowed + 1, pendingGrow := s.pendingGrow + 1 }
  | growFree (s : ChunkerState) (h1 : 0 < s.pendingGrow) (h2 : 0 < s.fillers) :
      ChunkerStep cap s
        { s with pendingGrow := s.pendingGrow - 1, fillers := s.fillers - 1 }
  | clampStore (s : ChunkerState) (h : 1 < s.active) :
      ChunkerStep cap s { s with allowed := cap }
  | clampInsert (s : ChunkerState) (h : s.occupancy < cap) :
      ChunkerStep cap s { s with fillers := s.fillers + 1 }

/-- States reachable from the freshly initialized chunker. -/
inductive ChunkerReachable (cap : Nat) : ChunkerState → Prop
  | init : ChunkerReachable cap (initChunker cap)
  | step {s t : ChunkerState} (hs : ChunkerReachable cap s)
      (hstep : ChunkerStep cap s t) : ChunkerReachable cap t

/-- Zero or more budget steps. -/
def ChunkerSteps (cap : Nat) : ChunkerState → ChunkerState → Prop :=
  Relation.ReflTransGen (ChunkerStep cap)

/-- Inductive invariant of the budget: the channel never overflows,
`allowed` stays within `[1, cap]`, and the fillers cover
`cap - allowed + pendingGrow`. -/
theorem chunkerInv (cap : Nat) (hcap : 1 ≤ cap) (s : ChunkerState)
    (hs : ChunkerReachable cap s) :
    s.occupancy ≤ cap ∧ 1 ≤ s.allowed ∧ s.allowed ≤ cap ∧
      cap + s.pendingGrow ≤ s.fillers + s.allowed := by
  induction hs with
  | init =>
    simp only [initChunker, ChunkerState.occupancy]
    omega
  | step hs hstep ih =>
    obtain ⟨i1, i2, i3, i4⟩ := ih
    cases hstep with
    | acquire h =>
      simp only [ChunkerState.occupancy] at *
      omega
    | countUp h =>
      simp only [ChunkerState.occupancy] at *
      omega
    | countDown h =>
      simp only [ChunkerState.occupancy] at *
      omega
    | releaseToken h =>
      simp only [ChunkerState.occupancy] at *
      omega
    | growCAS h =>
      simp only [ChunkerState.occupancy] at *
      omega
    | growFree h1 h2 =>
      simp only [ChunkerState.occupancy] at *
      omega
    | clampStore h =>
      simp only [ChunkerState.occupancy] at *
      omega
    | clampInsert h =>
      simp only [ChunkerState.occupancy] at *
      omega

/-! ## Claim C4: budget invariant 0 ≤ active ≤ allowed ≤ capacity -/

/-- C4: at every interleaving point of a transfer (every reachable budget
state, for a configured capacity ≥ 1), `active ≤ allowed ≤ capacity`
(`0 ≤ active` holds by the `Nat` model and because the increments and
decrements of `currentWindows` are paired); `allowed` starts at 1; every
step either leaves `allowed` unchanged, grows it by exactly one while
below capacity, or clamps it to capacity (the timeout freeze); and the
only steps that change `active` are the token-acquire completion
(`currentWindows.Add(1)`) and the release beginning
(`currentWindows.Add(-1)`), by exactly one each. -/
theorem c4_thm (cap : Nat) (hcap : 1 ≤ cap) (s : ChunkerState)
    (hs : ChunkerReachable cap s) :
    s.active ≤ s.allowed ∧ s.allowed ≤ cap ∧ (initChunker cap).allowed = 1 ∧
      (∀ t u, ChunkerStep cap t u →
        (u.allowed = t.allowed ∨ (t.allowed < cap ∧ u.allowed = t.allowed + 1) ∨
          u.allowed = cap) ∧
        (u.active ≠ t.active →
          (u.active = t.active + 1 ∧ t.uncounted = u.uncounted + 1) ∨
            (t.active = u.active + 1 ∧ u.releasing = t.releasing + 1))) := by
  obtain ⟨i1, i2, i3, i4⟩ := chunkerInv cap hcap s hs
  refine ⟨?_, i3, rfl, ?_⟩
  · simp only [ChunkerState.occupancy] at i1
    omega
  · intro t u hstep
    cases hstep with
    | acquire h => exact ⟨Or.inl rfl, fun hne => absurd rfl hne⟩
    | countUp h =>
      exact ⟨Or.inl rfl, fun _ => Or.inl ⟨rfl, by simp; omega⟩⟩
    | countDown h =>
      exact ⟨Or.inl rfl, fun _ => Or.inr ⟨by simp; omega, rfl⟩⟩
    | releaseToken h => exact ⟨Or.inl rfl, fun hne => absurd rfl hne⟩
    | growCAS h => exact ⟨Or.inr (Or.inl ⟨h, rfl⟩), fun hne => absurd rfl hne⟩
    | growFree h1 h2 => exact ⟨Or.inl rfl, fun hne => absurd rfl hne⟩
    | clampStore h => exact ⟨Or.inr (Or.inr rfl), fun hne => absurd rfl hne⟩
    | clampInsert h => exact ⟨Or.inl rfl, fun hne => absurd rfl hne⟩

/-- Witness for C4 at a concrete capacity and the initial state. -/
theorem c4_thm_witness :
    (initChunker 3).active ≤ (initChunker 3).allowed ∧ (initChunker 3).allowed ≤ 3 :=
  ⟨(c4_thm 3 (by decide) (initChunker 3) ChunkerReachable.init).1,
    (c4_thm 3 (by decide) (initChunker 3) ChunkerReachable.init).2.1⟩

/-! ## Claim C3: timeout freeze and the allowed-window count -/

/-- C3 counterexample: with capacity 5, the budget reaches a state with
two active windows and `allowed = 2`; the first-try timeout back-off then
executes `currentAllowedWindows.Store(int32(cap(c.sem)))`, raising
`allowed` to 5 — strictly above its value at the time of the freeze — so
the allowed-window count does not stay at or below its pre-timeout value. -/
theorem c3_counterexample :
    ChunkerReachable 5 ⟨2, 0, 0, 3, 0, 2⟩ ∧
      ChunkerStep 5 ⟨2, 0, 0, 3, 0, 2⟩ ⟨2, 0, 0, 3, 0, 5⟩ ∧
      (⟨2, 0, 0, 3, 0, 2⟩ : ChunkerState).allowed = 2 ∧
      (⟨2, 0, 0, 3, 0, 5⟩ : ChunkerState).allowed = 5 ∧ 2 < 5 := by
  have h1 : ChunkerReachable 5 ⟨0, 0, 0, 4, 1, 2⟩ :=
    ChunkerReachable.step ChunkerReachable.init
      (ChunkerStep.growCAS ⟨0, 0, 0, 4, 0, 1⟩ (by decide))
  have h2 : ChunkerReachable 5 ⟨0, 0, 0, 3, 0, 2⟩ :=
    ChunkerReachable.step h1
      (ChunkerStep.growFree ⟨0, 0, 0, 4, 1, 2⟩ (by decide) (by decide))
  have h3 : ChunkerReachable 5 ⟨0, 1, 0, 3, 0, 2⟩ :=
    ChunkerReachable.step h2
      (ChunkerStep.acquire ⟨0, 0, 0, 3, 0, 2⟩ (by decide))
  have h4 : ChunkerReachable 5 ⟨1, 0, 0, 3, 0, 2⟩ :=
    ChunkerReachable.step h3
      (ChunkerStep.countUp ⟨0, 1, 0, 3, 0, 2⟩ (by decide))
  have h5 : ChunkerReachable 5 ⟨1, 1, 0, 3, 0, 2⟩ :=
    ChunkerReachable.step h4
      (ChunkerStep.acquire ⟨1, 0, 0, 3, 0, 2⟩ (by decide))
  have h6 : ChunkerReachable 5 ⟨2, 0, 0, 3, 0, 2⟩ :=
    ChunkerReachable.step h5
      (ChunkerStep.countUp ⟨1, 1, 0, 3, 0, 2⟩ (by decide))
  exact ⟨h6, ChunkerStep.clampStore ⟨2, 0, 0, 3, 0, 2⟩ (by decide), rfl, rfl,
    by decide⟩

/-- Once `allowed = cap`, every later budget state still has
`allowed = cap`: growth requires `allowed < cap` and the clamp stores
`cap` again. -/
theorem allowedFrozenForever (cap : Nat) (s t : ChunkerState)
    (hfrozen : s.allowed = cap) (hsteps : ChunkerSteps cap s t) :
    t.allowed = cap := by
  induction hsteps with
  | refl => exact hfrozen
  | tail hst hstep ih =>
    cases hstep with
    | acquire h => exact ih
    | countUp h => exact ih
    | countDown h => exact ih
    | releaseToken h => exact ih
    | growCAS h => omega
    | growFree h1 h2 => exact ih
    | clampStore h => rfl
    | clampInsert h => exact ih

/-- C3 (amended): when a timeout on a chunk's first send attempt is
observed while more than one window is active, the back-off *stores the
configured capacity* into the allowed-window count (which may strictly
exceed its pre-timeout value); from that point on the allowed-window
count never changes — it stays exactly at the capacity for the remainder
of the transfer, and in particular never exceeds the capacity. -/
theorem c3_thm (cap : Nat) (s t : ChunkerState) (hact : 1 < s.active)
    (hsteps : ChunkerSteps cap { s with allowed := cap } t) :
    ChunkerStep cap s { s with allowed := cap } ∧ t.allowed = cap :=
  ⟨ChunkerStep.clampStore s hact,
    allowedFrozenForever cap { s with allowed := cap } t rfl hsteps⟩

/-- Witness for C3: the freeze step from the counterexample state, with a
subsequent worker count-down step, keeps `allowed` at the capacity. -/
theorem c3_thm_witness :
    ChunkerStep 5 ⟨2, 0, 0, 3, 0, 2⟩ ⟨2, 0, 0, 3, 0, 5⟩ ∧
      (⟨1, 0, 1, 3, 0, 5⟩ : ChunkerState).allowed = 5 :=
  c3_thm 5 ⟨2, 0, 0, 3, 0, 2⟩ ⟨1, 0, 1, 3, 0, 5⟩ (by decide)
    (Relation.ReflTransGen.single
      (ChunkerStep.countDown ⟨2, 0, 0, 3, 0, 5⟩ (by decide)))
